import Mathlib

/-!
Verification of the CFCSS GCC plugin (control-flow checking by software
signatures).  The definitions below are shallow embeddings of the code in
`src/func.cpp` and `src/plugin.cc`; theorems check the specification's
claims against them.
-/

namespace Cfcss

/-! ## Instruction encoder, from `src/func.cpp`, `_inst_ctrlsig`.

The C function computes the five fields of the custom R-type instruction
from the tuple `(d, S, D, m)`:

    int funct7 = (d >> 1) & 0x7f;
    int rd = (D & 0xf) << 1;  rd |= m & 1;
    int f3 = (D >> 4) & 7;
    int rs1 = (D >> 7) & 1;  rs1 |= (S & 0xf) << 1;
    int rs2 = (S >> 4) & 0xf;  rs2 |= (d & 1) << 4;
-/

def funct7 (d : Nat) : Nat := (d >>> 1) &&& 0x7f

def rdField (D m : Nat) : Nat := ((D &&& 0xf) <<< 1) ||| (m &&& 1)

def f3Field (D : Nat) : Nat := (D >>> 4) &&& 7

def rs1Field (D S : Nat) : Nat := ((D >>> 7) &&& 1) ||| ((S &&& 0xf) <<< 1)

def rs2Field (S d : Nat) : Nat := ((S >>> 4) &&& 0xf) ||| ((d &&& 1) <<< 4)

/-- The five instruction fields produced by `_inst_ctrlsig d S D m`. -/
structure Fields where
  f7 : Nat
  r2 : Nat
  r1 : Nat
  f3 : Nat
  rd : Nat
deriving DecidableEq, Repr

def encodeFields (d S D m : Nat) : Fields :=
  { f7 := funct7 d
    r2 := rs2Field S d
    r1 := rs1Field D S
    f3 := f3Field D
    rd := rdField D m }

/-- Modelled from the spec: the inverse decoder ("Decoding must be the exact
inverse: given the instruction's fields, recover `(d, S, D, m)` losslessly"),
which the repository does not ship under `src/`.  Each component reads back
the bits that `_inst_ctrlsig` placed in the corresponding field. -/
def decodeFields (f : Fields) : Nat × Nat × Nat × Nat :=
  ( (f.f7 <<< 1) ||| ((f.r2 >>> 4) &&& 1)
  , ((f.r2 &&& 0xf) <<< 4) ||| ((f.r1 >>> 1) &&& 0xf)
  , ((f.r1 &&& 1) <<< 7) ||| ((f.f3 &&& 7) <<< 4) ||| ((f.rd >>> 1) &&& 0xf)
  , f.rd &&& 1 )

/-! ### Bit-arithmetic helpers -/

theorem or_shift_add {b k : Nat} (a : Nat) (hb : b < 2 ^ k) :
    (a <<< k) ||| b = a * 2 ^ k + b := by
  induction k generalizing a b with
  | zero =>
    have hb0 : b = 0 := by simpa using hb
    simp [hb0, Nat.shiftLeft_eq]
  | succ k ih =>
    have hx : a <<< (k + 1) = 2 * (a <<< k) := by
      rw [Nat.shiftLeft_succ]
    have hdiv : (a <<< (k + 1) ||| b) / 2 = (a <<< k) ||| (b / 2) := by
      rw [Nat.or_div_two, hx, Nat.mul_div_cancel_left _ (by omega)]
    have hb2 : b / 2 < 2 ^ k := by
      rw [Nat.pow_succ] at hb
      omega
    have hih := ih (a := a) hb2
    have hxmod : a <<< (k + 1) % 2 = 0 := by omega
    have hmod : (a <<< (k + 1) ||| b) % 2 = b % 2 := by
      rcases Nat.mod_two_eq_zero_or_one b with h | h
      · have : ¬ ((a <<< (k + 1) ||| b) % 2 = 1) := by
          rw [Nat.or_mod_two_eq_one]
          omega
        omega
      · have : (a <<< (k + 1) ||| b) % 2 = 1 := by
          rw [Nat.or_mod_two_eq_one]
          omega
        omega
    have hsplit := Nat.div_add_mod (a <<< (k + 1) ||| b) 2
    have hsl : a <<< k = a * 2 ^ k := Nat.shiftLeft_eq a k
    have hpow : (2 : Nat) ^ (k + 1) = 2 ^ k * 2 := by rw [Nat.pow_succ]
    omega

theorem or_add_of_dvd {a b k : Nat} (hb : b < 2 ^ k) (ha : a % 2 ^ k = 0) :
    a ||| b = a + b := by
  obtain ⟨c, hc⟩ := Nat.dvd_iff_mod_eq_zero.mpr ha
  have hc2 : a = c <<< k := by rw [Nat.shiftLeft_eq, hc, Nat.mul_comm]
  rw [hc2, or_shift_add c hb, Nat.shiftLeft_eq]

/-! ### Arithmetic characterisations of the fields -/

theorem funct7_eq (d : Nat) : funct7 d = d / 2 % 128 := by
  unfold funct7
  rw [Nat.shiftRight_eq_div_pow]
  have : (0x7f : Nat) = 2 ^ 7 - 1 := by norm_num
  rw [this, Nat.and_pow_two_sub_one_eq_mod]

theorem rdField_eq (D m : Nat) : rdField D m = D % 16 * 2 + m % 2 := by
  unfold rdField
  have h15 : (0xf : Nat) = 2 ^ 4 - 1 := by norm_num
  rw [h15, Nat.and_pow_two_sub_one_eq_mod, Nat.and_one_is_mod,
    or_shift_add _ (show m % 2 < 2 ^ 1 by omega)]
  norm_num

theorem f3Field_eq (D : Nat) : f3Field D = D / 16 % 8 := by
  unfold f3Field
  rw [Nat.shiftRight_eq_div_pow]
  have : (7 : Nat) = 2 ^ 3 - 1 := by norm_num
  rw [this, Nat.and_pow_two_sub_one_eq_mod]

theorem rs1Field_eq (D S : Nat) : rs1Field D S = S % 16 * 2 + D / 128 % 2 := by
  unfold rs1Field
  have h15 : (0xf : Nat) = 2 ^ 4 - 1 := by norm_num
  rw [Nat.lor_comm, Nat.shiftRight_eq_div_pow, h15,
    Nat.and_pow_two_sub_one_eq_mod, Nat.and_one_is_mod,
    or_shift_add _ (show D / 2 ^ 7 % 2 < 2 ^ 1 by omega)]
  norm_num

theorem rs2Field_eq (S d : Nat) : rs2Field S d = d % 2 * 16 + S / 16 % 16 := by
  unfold rs2Field
  have h15 : (0xf : Nat) = 2 ^ 4 - 1 := by norm_num
  rw [Nat.lor_comm, Nat.shiftRight_eq_div_pow, h15,
    Nat.and_pow_two_sub_one_eq_mod, Nat.and_one_is_mod,
    or_shift_add _ (show S / 2 ^ 4 % 2 ^ 4 < 2 ^ 4 by omega)]
  norm_num

theorem decode_eq (f : Fields) :
    decodeFields f =
      ( f.f7 * 2 + f.r2 / 16 % 2
      , f.r2 % 16 * 16 + f.r1 / 2 % 16
      , f.r1 % 2 * 128 + (f.f3 &&& 7) * 16 + f.rd / 2 % 16
      , f.rd % 2 ) := by
  have h15 : (0xf : Nat) = 2 ^ 4 - 1 := by norm_num
  have h7 : f.f3 &&& 7 ≤ 7 := Nat.and_le_right
  unfold decodeFields
  rw [Nat.shiftRight_eq_div_pow, Nat.shiftRight_eq_div_pow,
    Nat.shiftRight_eq_div_pow, h15]
  rw [Nat.and_pow_two_sub_one_eq_mod, Nat.and_pow_two_sub_one_eq_mod,
    Nat.and_pow_two_sub_one_eq_mod, Nat.and_one_is_mod, Nat.and_one_is_mod,
    Nat.and_one_is_mod]
  rw [or_shift_add _ (show f.r2 / 2 ^ 4 % 2 < 2 ^ 1 by omega),
    or_shift_add _ (show f.r1 / 2 ^ 1 % 2 ^ 4 < 2 ^ 4 by omega)]
  rw [show ((f.r1 % 2) <<< 7) ||| ((f.f3 &&& 7) <<< 4)
        = f.r1 % 2 * 2 ^ 7 + (f.f3 &&& 7) * 2 ^ 4 by
      rw [Nat.shiftLeft_eq _ 4]
      exact or_shift_add _ (by omega)]
  rw [or_add_of_dvd (k := 4) (show f.rd / 2 ^ 1 % 2 ^ 4 < 2 ^ 4 by omega)
    (by omega)]
  norm_num

theorem decode_encode (d S D m : Nat) (hd : d < 256) (hS : S < 256)
    (hD : D < 256) (hm : m < 2) :
    decodeFields (encodeFields d S D m) = (d, S, D, m) := by
  rw [decode_eq]
  simp only [encodeFields]
  simp only [funct7_eq, rdField_eq, f3Field_eq, rs1Field_eq, rs2Field_eq]
  rw [show (7 : Nat) = 2 ^ 3 - 1 by norm_num, Nat.and_pow_two_sub_one_eq_mod]
  simp only [Prod.mk.injEq]
  refine ⟨?_, ?_, ?_, ?_⟩ <;> omega

/-- C1: for every `d, S, D ∈ [0,255]` and `m ∈ {0,1}`, decoding the
instruction fields produced by `_inst_ctrlsig` (funct7, rs2, rs1, funct3, rd)
losslessly recovers `(d, S, D, m)`: `decode (encode d S D m) = (d, S, D, m)`,
and the field encoding is injective on that domain. -/
theorem C1_encode_decode_roundtrip (d S D m : Nat)
    (hd : d < 256) (hS : S < 256) (hD : D < 256) (hm : m < 2) :
    decodeFields (encodeFields d S D m) = (d, S, D, m) ∧
    ∀ d' S' D' m', d' < 256 → S' < 256 → D' < 256 → m' < 2 →
      encodeFields d S D m = encodeFields d' S' D' m' →
      d = d' ∧ S = S' ∧ D = D' ∧ m = m' := by
  refine ⟨decode_encode d S D m hd hS hD hm, ?_⟩
  intro d' S' D' m' hd' hS' hD' hm' heq
  have h1 := decode_encode d S D m hd hS hD hm
  have h2 := decode_encode d' S' D' m' hd' hS' hD' hm'
  rw [heq, h2] at h1
  simp only [Prod.mk.injEq] at h1
  exact ⟨h1.1.symm, h1.2.1.symm, h1.2.2.1.symm, h1.2.2.2.symm⟩

/-- Witness for C1 at the spec's example `encode(0x12, 0x34, 0x56, 0)`. -/
theorem C1_encode_decode_roundtrip_witness :
    decodeFields (encodeFields 18 52 86 0) = (18, 52, 86, 0) :=
  (C1_encode_decode_roundtrip 18 52 86 0 (by decide) (by decide) (by decide)
    (by decide)).1

/-- The 32-bit word assembled from the five R-type fields plus the 7-bit
opcode, at the standard RISC-V R-type positions; the field/immediate
alignment is the one documented in the format diagram at the top of
`src/func.cpp`. -/
def rtypeWord (f : Fields) (opc : Nat) : Nat :=
  (f.f7 <<< 25) ||| (f.r2 <<< 20) ||| (f.r1 <<< 15) ||| (f.f3 <<< 12) |||
    (f.rd <<< 7) ||| opc

/-- C5: for 8-bit `d, S, D` and 1-bit `m`, the encoder spreads the tuple over
the 3-register template (rd carries D's low nibble and m, rs1 carries D's
high bit and S's low nibble, rs2 carries S's high nibble and bit 0 of d,
funct7 the remaining 7 bits of d), so that the assembled 32-bit word carries
`d` in bits 31..24, `S` in bits 23..16, `D` in bits 15..8 and `m` in bit 7. -/
theorem C5_word_layout (d S D m opc : Nat)
    (hd : d < 256) (hS : S < 256) (hD : D < 256) (hm : m < 2)
    (hopc : opc < 128) :
    rtypeWord (encodeFields d S D m) opc =
      (d <<< 24) ||| (S <<< 16) ||| (D <<< 8) ||| (m <<< 7) ||| opc := by
  unfold rtypeWord
  simp only [encodeFields]
  simp only [funct7_eq, rdField_eq, f3Field_eq, rs1Field_eq, rs2Field_eq,
    Nat.shiftLeft_eq]
  rw [or_add_of_dvd (k := 25)
      (show (d % 2 * 16 + S / 16 % 16) * 2 ^ 20 < 2 ^ 25 by omega)
      (by omega),
    or_add_of_dvd (k := 20)
      (show (S % 16 * 2 + D / 128 % 2) * 2 ^ 15 < 2 ^ 20 by omega)
      (by omega),
    or_add_of_dvd (k := 15)
      (show D / 16 % 8 * 2 ^ 12 < 2 ^ 15 by omega)
      (by omega),
    or_add_of_dvd (k := 12)
      (show (D % 16 * 2 + m % 2) * 2 ^ 7 < 2 ^ 12 by omega)
      (by omega),
    or_add_of_dvd (k := 7) (show opc < 2 ^ 7 by omega)
      (by omega)]
  rw [or_add_of_dvd (k := 24) (show S * 2 ^ 16 < 2 ^ 24 by omega)
      (by omega),
    or_add_of_dvd (k := 16) (show D * 2 ^ 8 < 2 ^ 16 by omega)
      (by omega),
    or_add_of_dvd (k := 8) (show m * 2 ^ 7 < 2 ^ 8 by omega)
      (by omega),
    or_add_of_dvd (k := 7) (show opc < 2 ^ 7 by omega)
      (by omega)]
  omega

/-- Witness for C5 at `(d, S, D, m) = (0x12, 0x34, 0x56, 0)` with the
CUSTOM_0 opcode `0b0001011`. -/
theorem C5_word_layout_witness :
    rtypeWord (encodeFields 18 52 86 0) 11 =
      (18 <<< 24) ||| (52 <<< 16) ||| (86 <<< 8) ||| (0 <<< 7) ||| 11 :=
  C5_word_layout 18 52 86 0 11 (by decide) (by decide) (by decide) (by decide)
    (by decide)

/-! ## CFG model and the diff planner, from `src/plugin.cc`

Basic blocks are identified by natural numbers.  A `CFG` records what the
pass reads: the module's blocks in `FOR_EACH_FUNCTION_WITH_GIMPLE_BODY` /
`FOR_EACH_BB_FN` iteration order, each block's stored CFG predecessor list
(`bb->preds`, edge sources in list order), the call-related predecessors
(the `pred_set` multimap entries for the block, in insertion order), and
the successor list (`bb->succs`, edge destinations in list order).

Signatures (`cfcss_sig_t`, an 8-bit type) are a total map `Nat → Nat`; the
planner only combines them with XOR, which never leaves the 8-bit range. -/

structure CFG where
  blocks : List Nat
  preds : Nat → List Nat
  predSet : Nat → List Nat
  succs : Nat → List Nat

/-- Pointwise map update, modelling assignment through `std::map`. -/
def upd (m : Nat → Option Nat) (k v : Nat) : Nat → Option Nat :=
  fun x => if x = k then some v else m x

/-- The two maps filled by the planning loop: `diff` (signature differences)
and `dmap` (adjusting signature values). -/
structure PlanState where
  diff : Nat → Option Nat
  dmap : Nat → Option Nat

def emptyState : PlanState := ⟨fun _ => none, fun _ => none⟩

/-- One iteration of the planning loop, `src/plugin.cc` lines 186-219:

    if (pred_set_len == 1)            diff[bb] = sig[pred] ^ sig[bb];
    else if (pred_set_len >= 2)       { base = first; diff[bb] = sig[base] ^ sig[bb];
                                        for each p in range: dmap[p] = sig[p] ^ sig[base]; }
    else if (bb->preds->length()==1)  diff[bb] = sig[preds[0]] ^ sig[bb];
    else if (bb->preds->length()>=2)  { base = preds[0]; diff[bb] = sig[base] ^ sig[bb];
                                        for each pred p: dmap[p] = sig[p] ^ sig[base]; }
    else                              diff[bb] = sig[bb];
-/
def planStep (g : CFG) (sig : Nat → Nat) (st : PlanState) (bb : Nat) :
    PlanState :=
  if (g.predSet bb).length = 1 then
    { st with diff := upd st.diff bb (sig ((g.predSet bb).headD 0) ^^^ sig bb) }
  else if 2 ≤ (g.predSet bb).length then
    { diff := upd st.diff bb (sig ((g.predSet bb).headD 0) ^^^ sig bb)
      dmap := (g.predSet bb).foldl
        (fun mp p => upd mp p (sig p ^^^ sig ((g.predSet bb).headD 0)))
        st.dmap }
  else if (g.preds bb).length = 1 then
    { st with diff := upd st.diff bb (sig ((g.preds bb).headD 0) ^^^ sig bb) }
  else if 2 ≤ (g.preds bb).length then
    { diff := upd st.diff bb (sig ((g.preds bb).headD 0) ^^^ sig bb)
      dmap := (g.preds bb).foldl
        (fun mp p => upd mp p (sig p ^^^ sig ((g.preds bb).headD 0)))
        st.dmap }
  else
    { st with diff := upd st.diff bb (sig bb) }

/-- The whole planning loop over the module's blocks. -/
def planDiffs (g : CFG) (sig : Nat → Nat) : PlanState :=
  g.blocks.foldl (planStep g sig) emptyState

/-! ### Map and fold lemmas -/

theorem foldl_upd_lookup (v : Nat → Nat) (p : Nat) :
    ∀ (l : List Nat) (m0 : Nat → Option Nat),
      (l.foldl (fun mp q => upd mp q (v q)) m0) p
        = if p ∈ l then some (v p) else m0 p := by
  intro l
  induction l with
  | nil => intro m0; simp
  | cons q l ih =>
    intro m0
    simp only [List.foldl_cons, ih]
    by_cases hql : p ∈ l
    · simp [hql, List.mem_cons]
    · by_cases hpq : p = q
      · subst hpq
        simp [hql, upd]
      · simp [hql, hpq, upd, List.mem_cons]

theorem planStep_diff_other (g : CFG) (sig : Nat → Nat) (st : PlanState)
    {bb b' : Nat} (h : b' ≠ bb) :
    (planStep g sig st bb).diff b' = st.diff b' := by
  unfold planStep
  split
  · simp [upd, h]
  · split
    · simp [upd, h]
    · split
      · simp [upd, h]
      · split
        · simp [upd, h]
        · simp [upd, h]

theorem foldl_diff_not_mem (g : CFG) (sig : Nat → Nat) :
    ∀ (l : List Nat) (st : PlanState) {b : Nat}, b ∉ l →
      (l.foldl (planStep g sig) st).diff b = st.diff b := by
  intro l
  induction l with
  | nil => intros; rfl
  | cons q l ih =>
    intro st b hb
    have h1 : b ≠ q ∧ b ∉ l := by simpa [List.mem_cons, not_or] using hb
    simp only [List.foldl_cons]
    rw [ih _ h1.2, planStep_diff_other g sig st h1.1]

/-- The final `diff` entry of a block is the one written when the loop
processed that block, provided the block occurs nowhere later. -/
theorem planDiffs_diff (g : CFG) (sig : Nat → Nat) {l1 l2 : List Nat}
    {b : Nat} (hblocks : g.blocks = l1 ++ b :: l2) (hnd : b ∉ l2) :
    (planDiffs g sig).diff b
      = ((l1 ++ [b]).foldl (planStep g sig) emptyState).diff b := by
  unfold planDiffs
  rw [hblocks, show l1 ++ b :: l2 = (l1 ++ [b]) ++ l2 by simp,
    List.foldl_append]
  exact foldl_diff_not_mem g sig l2 _ hnd

/-- The state right after the loop processed `b`, for a join block with no
call-related predecessors: `diff b` holds `sig base ^^^ sig b` and `dmap p`
holds `sig p ^^^ sig base` for every stored predecessor `p`. -/
theorem planStep_join (g : CFG) (sig : Nat → Nat) (st : PlanState) (b : Nat)
    (hps : g.predSet b = []) (hjoin : 2 ≤ (g.preds b).length) :
    (planStep g sig st b).diff b
        = some (sig ((g.preds b).headD 0) ^^^ sig b) ∧
    ∀ p ∈ g.preds b,
      (planStep g sig st b).dmap p
        = some (sig p ^^^ sig ((g.preds b).headD 0)) := by
  unfold planStep
  rw [hps]
  simp only [List.length_nil]
  rw [if_neg (by omega), if_neg (by omega), if_neg (by omega),
    if_pos hjoin]
  constructor
  · simp [upd]
  · intro p hp
    dsimp only
    rw [foldl_upd_lookup]
    simp [hp]

theorem xor_left_comm (a b c : Nat) : a ^^^ (b ^^^ c) = b ^^^ (a ^^^ c) := by
  rw [← Nat.xor_assoc, Nat.xor_comm a b, Nat.xor_assoc]

theorem xor_shuffle (a c d : Nat) : a ^^^ (c ^^^ d) ^^^ (a ^^^ c) = d := by
  simp only [Nat.xor_assoc, Nat.xor_comm, xor_left_comm]
  rw [← Nat.xor_assoc a a, Nat.xor_self, Nat.zero_xor,
    ← Nat.xor_assoc c c, Nat.xor_self, Nat.zero_xor]

/-- The 4-block diamond of the spec's scenario: `A(0) → {B(1), C(2)} → D(3)`,
with `B` stored first in `D`'s predecessor list. -/
def diamond : CFG where
  blocks := [0, 1, 2, 3]
  preds := fun b =>
    if b = 1 then [0] else if b = 2 then [0] else if b = 3 then [1, 2]
    else []
  predSet := fun _ => []
  succs := fun b =>
    if b = 0 then [1, 2] else if b = 1 then [3] else if b = 2 then [3]
    else []

/-- C2: for a join block `b` (two or more stored predecessors, no
call-related predecessors) with base predecessor `p0`, and any predecessor
`pi`: the planner records `AdjustMap[pi] = sig pi ^^^ sig p0` when it
processes `b`, its final `diff b` is `sig p0 ^^^ sig b`, and simulating
arrival via `pi` — `G := sig pi`, then the join update
`G := G ^^^ diff b ^^^ D` with `D = AdjustMap[pi]` — yields `G = sig b`,
whichever predecessor `pi` was taken. -/
theorem C2_join_correctness (g : CFG) (sig : Nat → Nat) (l1 l2 : List Nat)
    (b pi : Nat)
    (hblocks : g.blocks = l1 ++ b :: l2) (hnd : b ∉ l2)
    (hps : g.predSet b = [])
    (hjoin : 2 ≤ (g.preds b).length)
    (hpi : pi ∈ g.preds b) :
    ((l1 ++ [b]).foldl (planStep g sig) emptyState).dmap pi
        = some (sig pi ^^^ sig ((g.preds b).headD 0)) ∧
    (planDiffs g sig).diff b
        = some (sig ((g.preds b).headD 0) ^^^ sig b) ∧
    sig pi ^^^ (sig ((g.preds b).headD 0) ^^^ sig b)
        ^^^ (sig pi ^^^ sig ((g.preds b).headD 0)) = sig b := by
  have hstep := planStep_join g sig (l1.foldl (planStep g sig) emptyState) b
    hps hjoin
  have hsplit : (l1 ++ [b]).foldl (planStep g sig) emptyState
      = planStep g sig (l1.foldl (planStep g sig) emptyState) b := by
    rw [List.foldl_append]
    rfl
  refine ⟨?_, ?_, xor_shuffle _ _ _⟩
  · rw [hsplit]
    exact hstep.2 pi hpi
  · rw [planDiffs_diff g sig hblocks hnd, hsplit]
    exact hstep.1

/-- Witness for C2 on the diamond, arriving at the join `D(3)` via the
non-base predecessor `C(2)`. -/
theorem C2_join_correctness_witness :
    (([0, 1, 2] ++ [3]).foldl (planStep diamond (fun b => b))
        emptyState).dmap 2
      = some ((2 : Nat) ^^^ ((diamond.preds 3).headD 0)) ∧
    (planDiffs diamond (fun b => b)).diff 3
      = some (((diamond.preds 3).headD 0) ^^^ 3) ∧
    (2 : Nat) ^^^ (((diamond.preds 3).headD 0) ^^^ 3)
      ^^^ (2 ^^^ ((diamond.preds 3).headD 0)) = 3 :=
  C2_join_correctness diamond (fun b => b) [0, 1, 2] [] 3 2 (by decide)
    (by decide) (by decide) (by decide) (by decide)

/-- C3: the planner's diff rules for a block `b` with no call-related
predecessors: no stored predecessor gives `diff b = sig b`; a unique
predecessor `p` gives `diff b = sig p ^^^ sig b`; two or more give
`diff b = sig base ^^^ sig b` with `base` the first stored predecessor and
`AdjustMap[p] = sig p ^^^ sig base` recorded for every predecessor `p` as
`b` is processed.  On the 4-block diamond `A→{B,C}→D` with
`sig (A..D) = 0,1,2,3` and `B` stored first: `diff A = 0`, `diff B = 1`,
`diff C = 2`, `diff D = 2`, `AdjustMap[B] = 0`, `AdjustMap[C] = 3`. -/
theorem C3_diff_planning (g : CFG) (sig : Nat → Nat) (l1 l2 : List Nat)
    (b : Nat)
    (hblocks : g.blocks = l1 ++ b :: l2) (hnd : b ∉ l2)
    (hps : g.predSet b = []) :
    (g.preds b = [] → (planDiffs g sig).diff b = some (sig b)) ∧
    (∀ p, g.preds b = [p] →
      (planDiffs g sig).diff b = some (sig p ^^^ sig b)) ∧
    (2 ≤ (g.preds b).length →
      (planDiffs g sig).diff b
          = some (sig ((g.preds b).headD 0) ^^^ sig b) ∧
      ∀ p ∈ g.preds b,
        ((l1 ++ [b]).foldl (planStep g sig) emptyState).dmap p
          = some (sig p ^^^ sig ((g.preds b).headD 0))) ∧
    ((planDiffs diamond (fun x => x)).diff 0 = some 0 ∧
     (planDiffs diamond (fun x => x)).diff 1 = some 1 ∧
     (planDiffs diamond (fun x => x)).diff 2 = some 2 ∧
     (planDiffs diamond (fun x => x)).diff 3 = some 2 ∧
     (planDiffs diamond (fun x => x)).dmap 1 = some 0 ∧
     (planDiffs diamond (fun x => x)).dmap 2 = some 3) := by
  have hsplit : (l1 ++ [b]).foldl (planStep g sig) emptyState
      = planStep g sig (l1.foldl (planStep g sig) emptyState) b := by
    rw [List.foldl_append]
    rfl
  have hfin : (planDiffs g sig).diff b
      = (planStep g sig (l1.foldl (planStep g sig) emptyState) b).diff b := by
    rw [planDiffs_diff g sig hblocks hnd, hsplit]
  refine ⟨?_, ?_, ?_, by decide⟩
  · intro hnone
    rw [hfin]
    unfold planStep
    rw [hps, hnone]
    simp [upd]
  · intro p hone
    rw [hfin]
    unfold planStep
    rw [hps, hone]
    simp [upd]
  · intro hjoin
    have hstep := planStep_join g sig (l1.foldl (planStep g sig) emptyState)
      b hps hjoin
    exact ⟨by rw [hfin]; exact hstep.1,
      fun p hp => by rw [hsplit]; exact hstep.2 p hp⟩

/-- Witness for C3 with `b` the diamond's entry block `A(0)`, which has no
predecessors. -/
theorem C3_diff_planning_witness :
    (planDiffs diamond (fun x => x)).diff 0 = some 0 := by
  have h := C3_diff_planning diamond (fun x => x) [] [1, 2, 3] 0 (by decide)
    (by decide) (by decide)
  exact h.1 (by decide)

/-! ## The double-join special case, `src/plugin.cc` lines 221-241 and
262-274 -/

/-- The condition of lines 226-230: two successors, both multi-fan-in, with
different first stored predecessors. -/
def doubleJoin (g : CFG) (bb : Nat) : Prop :=
  (g.succs bb).length = 2 ∧
  1 < (g.preds ((g.succs bb).getD 0 0)).length ∧
  1 < (g.preds ((g.succs bb).getD 1 0)).length ∧
  (g.preds ((g.succs bb).getD 0 0)).headD 0
    ≠ (g.preds ((g.succs bb).getD 1 0)).headD 0

instance (g : CFG) (bb : Nat) : Decidable (doubleJoin g bb) := by
  unfold doubleJoin
  infer_instance

/-- Line 239: `dmap[bb] = sig[bb] ^ sig[(*br_target->preds)[0]->src]`,
where `br_target = (*bb->succs)[0]->dest`. -/
def secondAdjust (g : CFG) (sig : Nat → Nat) (bb : Nat) : Nat :=
  sig bb ^^^ sig ((g.preds ((g.succs bb).getD 0 0)).headD 0)

/-- One iteration of the loop at lines 221-241: on the double-join
condition the block is queued in `fall_thru_sigs` and its branch-path
adjusting value is written. -/
def pass2Step (g : CFG) (sig : Nat → Nat)
    (st : (Nat → Option Nat) × List Nat) (bb : Nat) :
    (Nat → Option Nat) × List Nat :=
  if doubleJoin g bb then
    (upd st.1 bb (secondAdjust g sig bb), st.2 ++ [bb])
  else st

/-- The loop at lines 221-241 over all blocks. -/
def pass2 (g : CFG) (sig : Nat → Nat) (dmap0 : Nat → Option Nat) :
    (Nat → Option Nat) × List Nat :=
  g.blocks.foldl (pass2Step g sig) (dmap0, [])

/-- Model of `split_edge` applied to the edge from `b` to its second stored
successor `s1`, with `n` the fresh block: the edge is redirected to `n`
(so `n` replaces `s1` at position 1 of `b`'s successor list and replaces
`b` in `s1`'s predecessor list), and `n` gets the single successor `s1`
and single predecessor `b`. -/
def splitEdge (g : CFG) (b n : Nat) : CFG :=
  { blocks := g.blocks ++ [n]
    preds := fun x =>
      if x = n then [b]
      else if x = (g.succs b).getD 1 0 then (g.preds x).replace b n
      else g.preds x
    predSet := g.predSet
    succs := fun x =>
      if x = n then [(g.succs b).getD 1 0]
      else if x = b then (g.succs x).set 1 n
      else g.succs x }

/-- The state read and written by the loop at lines 262-274. -/
structure Pass3State where
  g : CFG
  sig : Nat → Nat
  diff : Nat → Option Nat
  dmap : Nat → Option Nat

/-- One iteration of lines 262-274, for the queued block `b` and a fresh
block id `n`:

    auto orig_edge = (*pred_bb->succs)[1];
    auto succ_bb = orig_edge->dest;
    cfcss_sig_t dmap_val = sig[pred_bb] ^ sig[(*succ_bb->preds)[0]->src];
    bb = split_edge(orig_edge);
    sig[bb] = sig[pred_bb];  diff[bb] = 0;  dmap[bb] = dmap_val;

Note `dmap_val` is computed from the *fallthrough* successor's first
predecessor, before the edge is split. -/
def pass3Step (st : Pass3State) (b n : Nat) : Pass3State :=
  { g := splitEdge st.g b n
    sig := fun x =>
      if x = n then st.sig b else st.sig x
    diff := upd st.diff n 0
    dmap := upd st.dmap n
      (st.sig b ^^^ st.sig ((st.g.preds ((st.g.succs b).getD 1 0)).headD 0)) }

theorem pass2Step_dmap_other (g : CFG) (sig : Nat → Nat)
    (st : (Nat → Option Nat) × List Nat) {bb b' : Nat} (h : b' ≠ bb) :
    (pass2Step g sig st bb).1 b' = st.1 b' := by
  unfold pass2Step
  split
  · simp [upd, h]
  · rfl

theorem pass2_foldl_dmap_not_mem (g : CFG) (sig : Nat → Nat) :
    ∀ (l : List Nat) (st : (Nat → Option Nat) × List Nat) {b : Nat},
      b ∉ l → (l.foldl (pass2Step g sig) st).1 b = st.1 b := by
  intro l
  induction l with
  | nil => intros; rfl
  | cons q l ih =>
    intro st b hb
    have h1 : b ≠ q ∧ b ∉ l := by simpa [List.mem_cons, not_or] using hb
    simp only [List.foldl_cons]
    rw [ih _ h1.2, pass2Step_dmap_other g sig st h1.1]

/-- After the loop at lines 221-241, a double-join block's `dmap` entry is
its branch-path adjusting value (the block occurs once in the module). -/
theorem pass2_dmap (g : CFG) (sig : Nat → Nat) (dmap0 : Nat → Option Nat)
    {l1 l2 : List Nat} {b : Nat}
    (hblocks : g.blocks = l1 ++ b :: l2) (hnd : b ∉ l2)
    (hdj : doubleJoin g b) :
    (pass2 g sig dmap0).1 b = some (secondAdjust g sig b) := by
  unfold pass2
  rw [hblocks, show l1 ++ b :: l2 = (l1 ++ [b]) ++ l2 by simp,
    List.foldl_append, List.foldl_append]
  rw [pass2_foldl_dmap_not_mem g sig l2 _ hnd]
  simp only [List.foldl_cons, List.foldl_nil]
  unfold pass2Step
  rw [if_pos hdj]
  simp [upd]

theorem pass2_queue (g : CFG) (sig : Nat → Nat) (dmap0 : Nat → Option Nat) :
    (pass2 g sig dmap0).2
      = g.blocks.filter (fun bb => decide (doubleJoin g bb)) := by
  unfold pass2
  have h : ∀ (l : List Nat) (st : (Nat → Option Nat) × List Nat),
      (l.foldl (pass2Step g sig) st).2
        = st.2 ++ l.filter (fun bb => decide (doubleJoin g bb)) := by
    intro l
    induction l with
    | nil => intro st; simp
    | cons q l ih =>
      intro st
      simp only [List.foldl_cons, ih, List.filter_cons]
      unfold pass2Step
      split
      · rw [if_pos (by simpa)]
        simp
      · rw [if_neg (by simpa)]
  rw [h]
  rfl

/-- A concrete double-join configuration: block `0` branches to `1`
(branch target, preds `[3, 0]`) and falls through to `2` (preds `[4, 0]`);
the two join blocks have different base predecessors (`3` vs `4`). -/
def gDJ : CFG where
  blocks := [0, 1, 2, 3, 4]
  preds := fun b => if b = 1 then [3, 0] else if b = 2 then [4, 0] else []
  predSet := fun _ => []
  succs := fun b =>
    if b = 0 then [1, 2] else if b = 3 then [1] else if b = 4 then [2]
    else []

/-- Counterexample to C4 as stated: on `gDJ` with `sig = id` and fresh
block `5`, the planner assigns the new fallthrough block the adjusting
value `sig 0 ^^^ sig 4 = 4` — computed from the first predecessor of the
*fallthrough* successor `s1 = 2` — whereas the claim's formula
`sig(b) XOR sig(first-predecessor-of(s0)) = sig 0 ^^^ sig 3 = 3` differs. -/
theorem C4_counterexample :
    doubleJoin gDJ 0 ∧
    (pass3Step ⟨gDJ, fun x => x, fun _ => none, fun _ => none⟩ 0 5).dmap 5
      = some 4 ∧
    ¬ ((pass3Step ⟨gDJ, fun x => x, fun _ => none, fun _ => none⟩ 0 5).dmap 5
        = some ((fun x => x) 0
            ^^^ (fun x => x) ((gDJ.preds ((gDJ.succs 0).getD 0 0)).headD 0)))
    := by decide

/-- C4 (amended): for a block `b` satisfying the double-join condition,
queued by the planner, the fallthrough edge `(b, s1)` is split through a
fresh block `n`: afterwards `n` replaces `s1` as `b`'s second successor,
`n`'s only successor is `s1`, `n` replaces `b` in `s1`'s predecessor list,
and `sig n = sig b`, `diff n = 0`,
`AdjustMap[n] = sig b ^^^ sig (first-predecessor-of s1)`; the branch path
keeps `AdjustMap[b] = sig b ^^^ sig (first-predecessor-of s0)` from the
earlier loop. -/
theorem C4_double_join_split (g : CFG) (sig : Nat → Nat)
    (diff0 dmap0 : Nat → Option Nat) (l1 l2 : List Nat) (b n : Nat)
    (hblocks : g.blocks = l1 ++ b :: l2) (hnd : b ∉ l2)
    (hdj : doubleJoin g b)
    (hnb : n ≠ b) (hns1 : n ≠ (g.succs b).getD 1 0) :
    b ∈ (pass2 g sig dmap0).2 ∧
    (pass2 g sig dmap0).1 b
      = some (sig b ^^^ sig ((g.preds ((g.succs b).getD 0 0)).headD 0)) ∧
    ((pass3Step ⟨g, sig, diff0, dmap0⟩ b n).g.succs b
        = (g.succs b).set 1 n ∧
      (pass3Step ⟨g, sig, diff0, dmap0⟩ b n).g.succs n
        = [(g.succs b).getD 1 0] ∧
      (pass3Step ⟨g, sig, diff0, dmap0⟩ b n).g.preds ((g.succs b).getD 1 0)
        = (g.preds ((g.succs b).getD 1 0)).replace b n ∧
      (pass3Step ⟨g, sig, diff0, dmap0⟩ b n).sig n = sig b ∧
      (pass3Step ⟨g, sig, diff0, dmap0⟩ b n).diff n = some 0 ∧
      (pass3Step ⟨g, sig, diff0, dmap0⟩ b n).dmap n
        = some (sig b ^^^ sig ((g.preds ((g.succs b).getD 1 0)).headD 0))) := by
  refine ⟨?_, ?_, ?_, ?_, ?_, ?_, ?_, ?_⟩
  · rw [pass2_queue]
    rw [List.mem_filter]
    refine ⟨by rw [hblocks]; simp, by simpa⟩
  · exact pass2_dmap g sig dmap0 hblocks hnd hdj
  · unfold pass3Step splitEdge
    simp only
    rw [if_neg hnb.symm]
    simp
  · unfold pass3Step splitEdge
    simp
  · unfold pass3Step splitEdge
    simp only
    rw [if_neg hns1.symm]
    simp
  · unfold pass3Step
    simp
  · unfold pass3Step
    simp [upd]
  · unfold pass3Step
    simp [upd]

/-- Witness for C4 (amended) on the concrete configuration `gDJ`. -/
theorem C4_double_join_split_witness :
    0 ∈ (pass2 gDJ (fun x => x) (fun _ => none)).2 ∧
    (pass2 gDJ (fun x => x) (fun _ => none)).1 0
      = some ((fun x : Nat => x) 0
          ^^^ (fun x : Nat => x) ((gDJ.preds ((gDJ.succs 0).getD 0 0)).headD 0)) ∧
    ((pass3Step ⟨gDJ, fun x => x, fun _ => none, fun _ => none⟩ 0 5).g.succs 0
        = (gDJ.succs 0).set 1 5 ∧
      (pass3Step ⟨gDJ, fun x => x, fun _ => none, fun _ => none⟩ 0 5).g.succs 5
        = [(gDJ.succs 0).getD 1 0] ∧
      (pass3Step ⟨gDJ, fun x => x, fun _ => none, fun _ => none⟩ 0
          5).g.preds ((gDJ.succs 0).getD 1 0)
        = (gDJ.preds ((gDJ.succs 0).getD 1 0)).replace 0 5 ∧
      (pass3Step ⟨gDJ, fun x => x, fun _ => none, fun _ => none⟩ 0 5).sig 5
        = (fun x : Nat => x) 0 ∧
      (pass3Step ⟨gDJ, fun x => x, fun _ => none, fun _ => none⟩ 0 5).diff 5
        = some 0 ∧
      (pass3Step ⟨gDJ, fun x => x, fun _ => none, fun _ => none⟩ 0 5).dmap 5
        = some ((fun x : Nat => x) 0
            ^^^ (fun x : Nat => x)
              ((gDJ.preds ((gDJ.succs 0).getD 1 0)).headD 0))) :=
  C4_double_join_split gDJ (fun x => x) (fun _ => none) (fun _ => none)
    [] [1, 2, 3, 4] 0 5 (by decide) (by decide) (by decide) (by decide)
    (by decide)

/-- Modelled from the spec: the loop at `src/plugin.cc` lines 262-274
splits the queued fallthrough edge unconditionally, and the abnormal-edge
escape — "Edges marked abnormal (cannot be split safely, e.g. certain
exception edges) cause the planner to skip instrumentation entirely for
that function rather than produce an inconsistent plan" — lives in pass
handling that the repository does not ship under `src/`.  The guarded step
returns no plan at all when the fallthrough edge is marked abnormal, and
otherwise performs the split of lines 262-274. -/
def pass3StepChecked (abnormalEdge : Bool) (st : Pass3State) (b n : Nat) :
    Option Pass3State :=
  if abnormalEdge then none else some (pass3Step st b n)

/-- C6: when the fallthrough edge to be split in the double-join case is
marked abnormal, planning yields no instrumentation for the function — a
silent skip, not a crash or an inconsistent plan. -/
theorem C6_abnormal_edge_skip (st : Pass3State) (b n : Nat) :
    pass3StepChecked true st b n = none := rfl

/-! ## Push/pop markers, `src/plugin.cc` lines 243-260 -/

/-- Statements as the marker-insertion loop sees them. -/
inductive GStmt where
  /-- a call whose callee has a GIMPLE body in this module -/
  | callDef : GStmt
  /-- a call whose callee is undefined in this module (`call_sites_undef`) -/
  | callUndef : GStmt
  /-- the `.insn r CUSTOM_1, 0, 0, x2, x0, x0` marker -/
  | pushMarker : GStmt
  /-- the `.insn r CUSTOM_1, 0, 0, x3, x0, x0` marker -/
  | popMarker : GStmt
  /-- any other statement -/
  | plain : GStmt
deriving DecidableEq, Repr

/-- Lines 243-260: for every call site whose callee has no GIMPLE body,
one marker is inserted immediately before the call statement
(`gsi_insert_before`) and one immediately after it (`gsi_insert_after`).
No other statement is touched. -/
def bracketUndefCalls : List GStmt → List GStmt
  | [] => []
  | GStmt.callUndef :: rest =>
      GStmt.pushMarker :: GStmt.callUndef :: GStmt.popMarker ::
        bracketUndefCalls rest
  | s :: rest => s :: bracketUndefCalls rest

/-- Counterexample to C7 as stated: a function whose entry block is a
single non-call statement receives no marker at all, although the claim
requires a push marker at the function's entry block before the first
real instruction. -/
theorem C7_counterexample :
    bracketUndefCalls [GStmt.plain] = [GStmt.plain] ∧
    GStmt.pushMarker ∉ bracketUndefCalls [GStmt.plain] := by decide

/-- C7 (amended): the push and pop markers bracket each call to an
undefined-body callee — push immediately before the call, pop immediately
after it — and a statement sequence without such calls is left unchanged;
in particular no marker is scheduled at function entry or at exit blocks. -/
theorem C7_marker_placement :
    (∀ l, bracketUndefCalls l
      = l.flatMap (fun s =>
          if s = GStmt.callUndef
          then [GStmt.pushMarker, GStmt.callUndef, GStmt.popMarker]
          else [s])) ∧
    (∀ l, GStmt.callUndef ∉ l → bracketUndefCalls l = l) := by
  constructor
  · intro l
    induction l with
    | nil => rfl
    | cons s rest ih =>
      cases s <;> simp [bracketUndefCalls, ih, List.flatMap_cons]
  · intro l
    induction l with
    | nil => intro; rfl
    | cons s rest ih =>
      intro h
      have h1 : s ≠ GStmt.callUndef ∧ GStmt.callUndef ∉ rest := by
        simpa [List.mem_cons, not_or, eq_comm] using h
      cases s <;>
        simp_all [bracketUndefCalls]

/-- Witness for C7 (amended): a block with one undefined-body call gets a
bracketed call; a block without such calls is untouched. -/
theorem C7_marker_placement_witness :
    bracketUndefCalls [GStmt.plain, GStmt.callUndef]
      = [GStmt.plain, GStmt.callUndef].flatMap (fun s =>
          if s = GStmt.callUndef
          then [GStmt.pushMarker, GStmt.callUndef, GStmt.popMarker]
          else [s]) ∧
    bracketUndefCalls [GStmt.plain, GStmt.callDef]
      = [GStmt.plain, GStmt.callDef] :=
  ⟨C7_marker_placement.1 [GStmt.plain, GStmt.callUndef],
    C7_marker_placement.2 [GStmt.plain, GStmt.callDef] (by decide)⟩

/-! ## Signature assignment, `src/plugin.cc` lines 84 and 178-183

    cfcss_sig_t acc = 0;
    ...
    FOR_EACH_FUNCTION_WITH_GIMPLE_BODY (node)
      FOR_EACH_BB_FN (bb, node->get_fun())
        sig[bb] = acc++;
-/

/-- The assignment loop: one shared 8-bit counter, starting at 0,
incremented once per block over the whole module-order block list. -/
def assignSigs (bs : List Nat) : (Nat → Option Nat) × Nat :=
  bs.foldl (fun st b => (upd st.1 b st.2, (st.2 + 1) % 256))
    (fun _ => none, 0)

theorem assignSigs_foldl_not_mem :
    ∀ (bs : List Nat) (st : (Nat → Option Nat) × Nat) {b : Nat}, b ∉ bs →
      (bs.foldl (fun st b => (upd st.1 b st.2, (st.2 + 1) % 256)) st).1 b
        = st.1 b := by
  intro bs
  induction bs with
  | nil => intros; rfl
  | cons q l ih =>
    intro st b hb
    have h1 : b ≠ q ∧ b ∉ l := by simpa [List.mem_cons, not_or] using hb
    simp only [List.foldl_cons]
    rw [ih _ h1.2]
    simp [upd, h1.1]

theorem assignSigs_foldl_get :
    ∀ (bs : List Nat), bs.Nodup →
      ∀ (m : Nat → Option Nat) (a : Nat), a < 256 →
      ∀ (i : Nat) (hi : i < bs.length),
      (bs.foldl (fun st b => (upd st.1 b st.2, (st.2 + 1) % 256)) (m, a)).1
          (bs.get ⟨i, hi⟩)
        = some ((a + i) % 256) := by
  intro bs
  induction bs with
  | nil =>
    intro _ _ _ _ i hi
    simp at hi
  | cons q l ih =>
    intro hnd m a ha i hi
    have hq : q ∉ l := (List.nodup_cons.mp hnd).1
    have hl : l.Nodup := (List.nodup_cons.mp hnd).2
    match i with
    | 0 =>
      simp only [List.foldl_cons, List.get]
      rw [assignSigs_foldl_not_mem l _ hq]
      simp [upd]
      omega
    | Nat.succ j =>
      simp only [List.foldl_cons, List.get]
      have hj : j < l.length := by simpa using hi
      have := ih hl (upd m q a) ((a + 1) % 256) (by omega) j hj
      rw [this]
      congr 1
      omega

/-- C8: signatures are assigned by a single shared 8-bit counter starting
at 0, incremented once per block over the whole module-order list; the
step is total (block `i` always receives `i % 256`, no error), and any two
distinct blocks among fewer than 256 assigned blocks receive distinct
signatures. -/
theorem C8_sig_uniqueness (bs : List Nat) (hnd : bs.Nodup) :
    (∀ (i : Nat) (hi : i < bs.length),
      (assignSigs bs).1 (bs.get ⟨i, hi⟩) = some (i % 256)) ∧
    (bs.length < 256 →
      ∀ (i j : Nat) (hi : i < bs.length) (hj : j < bs.length), i ≠ j →
        (assignSigs bs).1 (bs.get ⟨i, hi⟩)
          ≠ (assignSigs bs).1 (bs.get ⟨j, hj⟩)) := by
  have hval : ∀ (i : Nat) (hi : i < bs.length),
      (assignSigs bs).1 (bs.get ⟨i, hi⟩) = some (i % 256) := by
    intro i hi
    have := assignSigs_foldl_get bs hnd (fun _ => none) 0 (by omega) i hi
    simpa [assignSigs] using this
  refine ⟨hval, ?_⟩
  intro hlen i j hi hj hij
  rw [hval i hi, hval j hj]
  intro h
  have : i % 256 = j % 256 := by simpa using h
  rw [Nat.mod_eq_of_lt (by omega), Nat.mod_eq_of_lt (by omega)] at this
  exact hij this

/-- Witness for C8 on the three-block module `[10, 20, 30]`. -/
theorem C8_sig_uniqueness_witness :
    (assignSigs [10, 20, 30]).1 ([10, 20, 30].get ⟨1, by decide⟩)
        = some (1 % 256) ∧
    (assignSigs [10, 20, 30]).1 ([10, 20, 30].get ⟨0, by decide⟩)
        ≠ (assignSigs [10, 20, 30]).1 ([10, 20, 30].get ⟨2, by decide⟩) :=
  ⟨(C8_sig_uniqueness [10, 20, 30] (by decide)).1 1 (by decide),
    (C8_sig_uniqueness [10, 20, 30] (by decide)).2 (by decide) 0 2
      (by decide) (by decide) (by decide)⟩

/-! ## Call-boundary block splitting, `src/plugin.cc` lines 151-159 -/

/-- Instruction classification for the call-boundary planner. -/
inductive CInstr where
  /-- a non-tail call -/
  | callNT : CInstr
  /-- a tail call -/
  | callTail : CInstr
  /-- anything else -/
  | plain : CInstr
deriving DecidableEq, Repr

/-- Modelled from the spec: line 156 calls GCC's
`split_block(call_site->call_stmt->bb, call_site->call_stmt)`, whose
implementation is not part of this repository.  Per the spec's
CallBoundaryPlanner contract, "any non-tail call instruction that is not
already the last instruction of its block forces a block split immediately
after it".  `splitPos` finds the first such call; it is `none` when the
block needs no split. -/
def splitPos : List CInstr → Option Nat
  | [] => none
  | CInstr.callNT :: rest => if rest = [] then none else some 0
  | CInstr.callTail :: rest => (splitPos rest).map (· + 1)
  | CInstr.plain :: rest => (splitPos rest).map (· + 1)

/-- The split itself: the block is cut immediately after the call found by
`splitPos`; `none` when the block needs no split. -/
def splitAtCall (l : List CInstr) : Option (List CInstr × List CInstr) :=
  (splitPos l).map (fun i => (l.take (i + 1), l.drop (i + 1)))

theorem splitPos_lt :
    ∀ (l : List CInstr) (i : Nat), splitPos l = some i → i + 1 < l.length := by
  intro l
  induction l with
  | nil => intro i h; simp [splitPos] at h
  | cons c rest ih =>
    intro i h
    cases c with
    | callNT =>
      by_cases hr : rest = []
      · simp [splitPos, hr] at h
      · simp only [splitPos, if_neg hr] at h
        have hi : i = 0 := by simpa using h.symm
        have : 0 < rest.length := List.length_pos.mpr hr
        simp [hi]
        omega
    | callTail =>
      simp only [splitPos] at h
      match hsp : splitPos rest with
      | none => rw [hsp] at h; simp at h
      | some j =>
        rw [hsp] at h
        have hij : i = j + 1 := by simpa using h.symm
        have := ih j hsp
        simp [hij]
        omega
    | plain =>
      simp only [splitPos] at h
      match hsp : splitPos rest with
      | none => rw [hsp] at h; simp at h
      | some j =>
        rw [hsp] at h
        have hij : i = j + 1 := by simpa using h.symm
        have := ih j hsp
        simp [hij]
        omega

theorem splitPos_take_eq :
    ∀ (l : List CInstr) (i : Nat), splitPos l = some i →
      splitPos (l.take (i + 1)) = none ∧
      ∃ c1, l.take (i + 1) = c1 ++ [CInstr.callNT] := by
  intro l
  induction l with
  | nil => intro i h; simp [splitPos] at h
  | cons c rest ih =>
    intro i h
    cases c with
    | callNT =>
      by_cases hr : rest = []
      · simp [splitPos, hr] at h
      · simp only [splitPos, if_neg hr] at h
        have hi : i = 0 := by simpa using h.symm
        subst hi
        refine ⟨by simp [splitPos], [], by simp⟩
    | callTail =>
      simp only [splitPos] at h
      match hsp : splitPos rest with
      | none => rw [hsp] at h; simp at h
      | some j =>
        rw [hsp] at h
        have hij : i = j + 1 := by simpa using h.symm
        subst hij
        obtain ⟨h1, c1, h2⟩ := ih j hsp
        refine ⟨?_, CInstr.callTail :: c1, by simp [h2]⟩
        simp [List.take_succ_cons, splitPos, h1]
    | plain =>
      simp only [splitPos] at h
      match hsp : splitPos rest with
      | none => rw [hsp] at h; simp at h
      | some j =>
        rw [hsp] at h
        have hij : i = j + 1 := by simpa using h.symm
        subst hij
        obtain ⟨h1, c1, h2⟩ := ih j hsp
        refine ⟨?_, CInstr.plain :: c1, by simp [h2]⟩
        simp [List.take_succ_cons, splitPos, h1]

/-- C9: splitting a block at a non-tail, non-terminal call yields exactly
two blocks whose concatenation is the original sequence, the first of
which ends with the call; and re-running the split planner on the
already-split first block is a no-op. -/
theorem C9_call_split_idempotent (l b1 b2 : List CInstr)
    (h : splitAtCall l = some (b1, b2)) :
    b1 ++ b2 = l ∧ b1 ≠ [] ∧ b2 ≠ [] ∧
    (∃ c1, b1 = c1 ++ [CInstr.callNT]) ∧
    splitAtCall b1 = none := by
  unfold splitAtCall at h
  match hsp : splitPos l with
  | none => rw [hsp] at h; simp at h
  | some i =>
    rw [hsp] at h
    have hb : b1 = l.take (i + 1) ∧ b2 = l.drop (i + 1) := by
      simp only [Option.map_some', Option.some.injEq, Prod.mk.injEq] at h
      exact ⟨h.1.symm, h.2.symm⟩
    obtain ⟨hb1, hb2⟩ := hb
    have hlt := splitPos_lt l i hsp
    obtain ⟨hnone, hend⟩ := splitPos_take_eq l i hsp
    refine ⟨?_, ?_, ?_, ?_, ?_⟩
    · rw [hb1, hb2]
      exact List.take_append_drop _ l
    · rw [hb1]
      intro hcon
      have hlen : (l.take (i + 1)).length = 0 := by rw [hcon]; rfl
      rw [List.length_take] at hlen
      omega
    · rw [hb2]
      intro hcon
      have hlen : (l.drop (i + 1)).length = 0 := by rw [hcon]; rfl
      rw [List.length_drop] at hlen
      omega
    · rw [hb1]
      exact hend
    · rw [hb1]
      unfold splitAtCall
      rw [hnone]
      rfl

/-- Witness for C9 on the block `[plain, callNT, plain]`, split into
`[plain, callNT]` and `[plain]`. -/
theorem C9_call_split_idempotent_witness :
    [CInstr.plain, CInstr.callNT] ++ [CInstr.plain]
        = [CInstr.plain, CInstr.callNT, CInstr.plain] ∧
    [CInstr.plain, CInstr.callNT] ≠ ([] : List CInstr) ∧
    [CInstr.plain] ≠ ([] : List CInstr) ∧
    (∃ c1, [CInstr.plain, CInstr.callNT] = c1 ++ [CInstr.callNT]) ∧
    splitAtCall [CInstr.plain, CInstr.callNT] = none :=
  C9_call_split_idempotent [CInstr.plain, CInstr.callNT, CInstr.plain]
    [CInstr.plain, CInstr.callNT] [CInstr.plain] (by decide)

/-! ## Check insertion, `src/plugin.cc` lines 277-297 and `src/func.cpp`
lines 40-55 -/

/-- Statements of a block body as the insertion loop sees them. -/
inductive EStmt where
  /-- a GIMPLE label -/
  | label : EStmt
  /-- an inserted checking instruction carrying `(m, d, S, D)` -/
  | chk (m d S D : Nat) : EStmt
  /-- any other statement -/
  | plain : EStmt
deriving DecidableEq, Repr

def isLabel : EStmt → Bool
  | EStmt.label => true
  | _ => false

def isChk : EStmt → Bool
  | EStmt.chk _ _ _ _ => true
  | _ => false

/-- Statement form of `_inst_ctrlsig` (the emitted asm text carries
exactly `(d, S, D, m)`, spread over the fields per `encodeFields`). -/
def inst_ctrlsig (d S D m : Nat) : EStmt := EStmt.chk m d S D

/-- Function `inst_ctrlsig_s` from `src/func.cpp`: `_inst_ctrlsig(d, S, D, 0)`. -/
def inst_ctrlsig_s (d S D : Nat) : EStmt := inst_ctrlsig d S D 0

/-- Function `inst_ctrlsig_m` from `src/func.cpp`: `_inst_ctrlsig(d, S, D, 1)`. -/
def inst_ctrlsig_m (d S D : Nat) : EStmt := inst_ctrlsig d S D 1

/-- The loop body at `src/plugin.cc` lines 279-295 for one block:

    auto gsi = gsi_after_labels(bb);
    cfcss_sig_t cur_sig = sig[bb];
    cfcss_sig_t cur_diff = diff[bb];
    cfcss_sig_t cur_adj = dmap.find(bb) != dmap.end() ? dmap[bb] : 0;
    if (bb->preds->length() >= 2 || pred_set.count(bb) >= 2)
      stmt = ... inst_ctrlsig_m(cur_diff, cur_sig, cur_adj) ...;
    else
      stmt = ... inst_ctrlsig_s(cur_diff, cur_sig, cur_adj) ...;
    gsi_insert_before(&gsi, stmt, GSI_SAME_STMT);

`gsi_after_labels` points at the first non-label statement, so the check
lands after the leading labels and before everything else. -/
def emitBlock (g : CFG) (sig : Nat → Nat) (st : PlanState) (bb : Nat)
    (body : List EStmt) : List EStmt :=
  body.takeWhile isLabel ++
    (if 2 ≤ (g.preds bb).length ∨ 2 ≤ (g.predSet bb).length then
      inst_ctrlsig_m ((st.diff bb).getD 0) (sig bb) ((st.dmap bb).getD 0)
    else
      inst_ctrlsig_s ((st.diff bb).getD 0) (sig bb) ((st.dmap bb).getD 0)) ::
    body.dropWhile isLabel

theorem head_dropWhile (p : EStmt → Bool) :
    ∀ (l : List EStmt) (s : EStmt), (l.dropWhile p).head? = some s →
      p s = false := by
  intro l
  induction l with
  | nil => intro s h; simp [List.dropWhile] at h
  | cons a l ih =>
    intro s h
    by_cases hpa : p a = true
    · rw [List.dropWhile_cons_of_pos hpa] at h
      exact ih s h
    · rw [List.dropWhile_cons_of_neg hpa] at h
      simp only [List.head?_cons, Option.some.injEq] at h
      rw [← h]
      simpa using hpa

/-- C10: for every block, the pass inserts exactly one checking
instruction, placed after the block's leading labels and before its first
non-label statement; the instruction is the join (multi) form iff the
block has at least two CFG predecessors or at least two call-related
predecessors; its `d` operand is the block's diff, its `S` operand the
block's signature, and its `D` (adjust) operand the block's `dmap` entry
when one exists and 0 otherwise. -/
theorem C10_check_insertion (g : CFG) (sig : Nat → Nat) (st : PlanState)
    (bb : Nat) (body : List EStmt) (hno : body.countP isChk = 0) :
    (emitBlock g sig st bb body).countP isChk = 1 ∧
    ∃ pre post d S D m,
      body = pre ++ post ∧
      (∀ s ∈ pre, isLabel s = true) ∧
      (∀ s, post.head? = some s → isLabel s = false) ∧
      emitBlock g sig st bb body = pre ++ inst_ctrlsig d S D m :: post ∧
      (m = 1 ↔ (2 ≤ (g.preds bb).length ∨ 2 ≤ (g.predSet bb).length)) ∧
      d = (st.diff bb).getD 0 ∧ S = sig bb ∧ D = (st.dmap bb).getD 0 := by
  constructor
  · have hsplit : body.takeWhile isLabel ++ body.dropWhile isLabel = body :=
      List.takeWhile_append_dropWhile isLabel body
    have hcnt : (body.takeWhile isLabel).countP isChk
        + (body.dropWhile isLabel).countP isChk = 0 := by
      rw [← List.countP_append, hsplit]
      exact hno
    have hchk : isChk
        (if 2 ≤ (g.preds bb).length ∨ 2 ≤ (g.predSet bb).length then
          inst_ctrlsig_m ((st.diff bb).getD 0) (sig bb) ((st.dmap bb).getD 0)
        else
          inst_ctrlsig_s ((st.diff bb).getD 0) (sig bb)
            ((st.dmap bb).getD 0)) = true := by
      split <;> rfl
    unfold emitBlock
    rw [List.countP_append, List.countP_cons, hchk]
    simp only [if_pos]
    omega
  · refine ⟨body.takeWhile isLabel, body.dropWhile isLabel,
      (st.diff bb).getD 0, sig bb, (st.dmap bb).getD 0,
      if 2 ≤ (g.preds bb).length ∨ 2 ≤ (g.predSet bb).length then 1 else 0,
      (List.takeWhile_append_dropWhile isLabel body).symm,
      fun s hs => List.mem_takeWhile_imp hs,
      head_dropWhile isLabel body, ?_, ?_, rfl, rfl, rfl⟩
    · unfold emitBlock
      split
      · rfl
      · rfl
    · split
      · simpa using (by assumption :
          2 ≤ (g.preds bb).length ∨ 2 ≤ (g.predSet bb).length)
      · simpa using (by assumption :
          ¬ (2 ≤ (g.preds bb).length ∨ 2 ≤ (g.predSet bb).length))

/-- Witness for C10 on the diamond's join block `D(3)` with body
`[label, plain]`. -/
theorem C10_check_insertion_witness :
    (emitBlock diamond (fun x => x) (planDiffs diamond (fun x => x)) 3
        [EStmt.label, EStmt.plain]).countP isChk = 1 ∧
    ∃ pre post d S D m,
      [EStmt.label, EStmt.plain] = pre ++ post ∧
      (∀ s ∈ pre, isLabel s = true) ∧
      (∀ s, post.head? = some s → isLabel s = false) ∧
      emitBlock diamond (fun x => x) (planDiffs diamond (fun x => x)) 3
          [EStmt.label, EStmt.plain]
        = pre ++ inst_ctrlsig d S D m :: post ∧
      (m = 1 ↔ (2 ≤ (diamond.preds 3).length
        ∨ 2 ≤ (diamond.predSet 3).length)) ∧
      d = ((planDiffs diamond (fun x => x)).diff 3).getD 0 ∧
      S = (fun x : Nat => x) 3 ∧
      D = ((planDiffs diamond (fun x => x)).dmap 3).getD 0 :=
  C10_check_insertion diamond (fun x => x)
    (planDiffs diamond (fun x => x)) 3 [EStmt.label, EStmt.plain]
    (by decide)

end Cfcss
